import Mathlib

/-!
Verification of the "Aplicación de Random Projections" notebook
(Twenty Newsgroups corpus, sparse random projections, small classifier).

The development shallowly embeds the notebook's own logic: the output
dimensionality computation of cell-7, the fit-once / project-twice flow of
cells 8, 11/12 and 17, the `next_batch` sampler of cell-19 and the fixed-epoch
training loop of cell-20.  External library internals (sklearn's
TfidfVectorizer row normalization) are modelled from the spec where noted.
-/

namespace RandomProjections

open Real

/-- Embedding of cell-7: `m = int(np.log(p)/(error**2)) + 1`.  For `p ≥ 1` the
quotient is nonnegative, so Python's truncating `int` is the floor. -/
noncomputable def computeM (p : ℕ) (ε : ℝ) : ℤ :=
  ⌊Real.log p / ε ^ 2⌋ + 1

/-- The spec's reading of the same quantity: the smallest integer `≥ ln p / ε²`
(the ceiling) plus a further `+1` safety margin.  Stated from the spec's words,
to be compared with `computeM`. -/
noncomputable def claimedM (p : ℕ) (ε : ℝ) : ℤ :=
  ⌈Real.log p / ε ^ 2⌉ + 1

/-- Run-time behaviour of cell-7 including Python error semantics: for `p = 0`,
`np.log(0)` is `-inf` and `int(-inf)` raises `OverflowError`, modelled as
`none`; for every `p ≥ 1` the cell returns a value with no check on `p` or
`n`. -/
noncomputable def computeM_run (p : ℕ) (ε : ℝ) : Option ℤ :=
  if p = 0 then none else some (computeM p ε)

/-- Matrix–vector product `R · v`, the left-multiplication by `R` used in
cell-11 (`np.dot(rp.components_, tfidf.T)`) column by column. -/
def matVecMul {m n : ℕ} (R : Fin m → Fin n → ℝ) (v : Fin n → ℝ) : Fin m → ℝ :=
  fun i => ∑ j, R i j * v j

/-- One-hot vector for vocabulary term `j`: a document whose components are all
zero except component `j`, which is one (cell-1's description). -/
def oneHot {n : ℕ} (j : Fin n) : Fin n → ℝ :=
  fun k => if k = j then 1 else 0

/-- Projection of a whole document matrix: `(np.dot(R, M.T)).T`, i.e. document
`d` is sent to `R ·` (row `d` of `M`), as in cells 11/12 and 17. -/
def projectDocs {m n p : ℕ} (R : Fin m → Fin n → ℝ) (M : Fin p → Fin n → ℝ) :
    Fin p → Fin m → ℝ :=
  fun d i => matVecMul R (M d) i

/-- Notebook variables relevant to the projection flow: the fitted projection
matrix `rp.components_` and the two reduced matrices, each `none` before the
cell assigning it has run. -/
structure NBState (m n p q : ℕ) where
  rp : Option (Fin m → Fin n → ℝ)
  M_prime : Option (Fin p → Fin m → ℝ)
  M_prime_test : Option (Fin q → Fin m → ℝ)

/-- State before cell-8: nothing fitted, nothing projected. -/
def initState (m n p q : ℕ) : NBState m n p q :=
  ⟨none, none, none⟩

/-- Cell-8: `rp.fit(tfidf)` draws the sparse projection matrix once.  The
library's random draw is taken as the parameter `R`; the cell only stores it. -/
def cell8_fit {m n p q : ℕ} (R : Fin m → Fin n → ℝ) (s : NBState m n p q) :
    NBState m n p q :=
  { s with rp := some R }

/-- Cells 11/12: `M_prime = np.dot(rp.components_, tfidf.T)` then transpose,
reading whatever matrix is currently stored in `rp`. -/
def cell11_project {m n p q : ℕ} (M : Fin p → Fin n → ℝ) (s : NBState m n p q) :
    NBState m n p q :=
  { s with M_prime := s.rp.map (fun R => projectDocs R M) }

/-- Cell-17: `M_prime_test = np.dot(rp.components_, tfidf_test.T)` then
transpose, again reading the stored `rp`. -/
def cell17_projectTest {m n p q : ℕ} (Mt : Fin q → Fin n → ℝ)
    (s : NBState m n p q) : NBState m n p q :=
  { s with M_prime_test := s.rp.map (fun R => projectDocs R Mt) }

/-- The notebook's projection flow in cell order: fit once (cell-8), project
the training matrix (cells 11/12), project the later-arriving test matrix
(cell-17).  No other cell writes `rp`. -/
def projectionPipeline {m n p q : ℕ} (R : Fin m → Fin n → ℝ)
    (M : Fin p → Fin n → ℝ) (Mt : Fin q → Fin n → ℝ) : NBState m n p q :=
  cell17_projectTest Mt (cell11_project M (cell8_fit R (initState m n p q)))

/-- Euclidean (L2) norm of a row vector. -/
noncomputable def l2norm {n : ℕ} (v : Fin n → ℝ) : ℝ :=
  Real.sqrt (∑ j, v j ^ 2)

/-- Modelled from the spec: the final row normalization performed by sklearn's
`TfidfVectorizer(..., norm="l2")` (library code, not in the repository).  As in
`sklearn.preprocessing.normalize`, a zero norm is replaced by 1 before
dividing, so an all-zero row is left unchanged. -/
noncomputable def l2normalizeRow {n : ℕ} (v : Fin n → ℝ) : Fin n → ℝ :=
  fun j => v j / (if l2norm v = 0 then 1 else l2norm v)

/-- Modelled from the spec: a TF-IDF row is the entrywise product of the term
frequencies and the idf weights, L2-normalized. -/
noncomputable def tfidfRow {n : ℕ} (tf idf : Fin n → ℝ) : Fin n → ℝ :=
  l2normalizeRow (fun j => tf j * idf j)

/-- Index list drawn by `next_batch` (cell-19): `idx = np.arange(len(data))`,
shuffled, then truncated to the first `num` entries.  The shuffle's random
permutation is the parameter `π`. -/
def batchIdx (N num : ℕ) (perm : Equiv.Perm (Fin N)) : List (Fin N) :=
  (((List.finRange N).map perm).take num)

/-- Embedding of `next_batch(num, data, labels)` of cell-19: both outputs are
built from the single truncated shuffled index list. -/
def next_batch {α β : Type} (N num : ℕ) (perm : Equiv.Perm (Fin N))
    (data : Fin N → α) (labels : Fin N → β) : List α × List β :=
  ((batchIdx N num perm).map data, (batchIdx N num perm).map labels)

/-- One epoch of cell-20: fold the optimizer step over the batches of the
epoch, in order.  The TensorFlow Adam step is the abstract parameter `step`. -/
def runEpoch {Θ B : Type} (step : Θ → B → Θ) (bats : List B) (θ0 : Θ) : Θ :=
  bats.foldl step θ0

/-- The epoch loop of cell-20: after each epoch, the held-out test set is
evaluated (`loss_op` and `acc_op` on the test feed), producing one
(loss, accuracy) record per epoch; nothing inspects the values, so the loop
never exits early. -/
def runEpochs {Θ B : Type} (step : Θ → B → Θ) (eval : Θ → ℝ × ℝ) :
    List (List B) → Θ → Θ × List (ℝ × ℝ)
  | [], θ0 => (θ0, [])
  | bats :: rest, θ0 =>
    let θ1 := runEpoch step bats θ0
    let r := runEpochs step eval rest θ1
    (r.1, eval θ1 :: r.2)

/-- Embedding of the cell-20 training loop: `training_epochs = 12`,
`batch_size = 256`, `total_batch = int(M_prime.shape[0]/batch_size)` with
`M_prime.shape[0] = 11314`; each inner iteration draws a fresh batch (the
abstract stream `bs`), and after the loop the final test accuracy is computed
from the final parameters. -/
def cell20_train {Θ B : Type} (step : Θ → B → Θ) (eval : Θ → ℝ × ℝ)
    (finalAcc : Θ → ℝ) (bs : ℕ → ℕ → B) (θ0 : Θ) : Θ × List (ℝ × ℝ) × ℝ :=
  let bss := (List.range 12).map (fun ep => (List.range (11314 / 256)).map (bs ep))
  let r := runEpochs step eval bss θ0
  (r.1, r.2, finalAcc r.1)

/- Helper lemmas. -/

lemma exp_lt_three : Real.exp 1 < 3 :=
  lt_trans Real.exp_one_lt_d9 (by norm_num)

lemma one_lt_log_three : 1 < Real.log 3 := by
  rw [Real.lt_log_iff_exp_lt (by norm_num : (0:ℝ) < 3)]
  exact exp_lt_three

lemma log_three_lt_two : Real.log 3 < 2 := by
  rw [Real.log_lt_iff_lt_exp (by norm_num : (0:ℝ) < 3)]
  have h2 : Real.exp 2 = Real.exp 1 ^ 2 := by
    rw [← Real.exp_nat_mul]
    norm_num
  have h3 : (2.7182818283 : ℝ) ^ 2 < Real.exp 1 ^ 2 :=
    pow_lt_pow_left₀ Real.exp_one_gt_d9 (by norm_num) (by norm_num)
  have h4 : (3 : ℝ) < (2.7182818283 : ℝ) ^ 2 := by norm_num
  rw [h2]
  exact lt_trans h4 h3

lemma floor_log_three : ⌊Real.log 3 / (1 : ℝ) ^ 2⌋ = 1 := by
  rw [Int.floor_eq_iff, one_pow, div_one]
  push_cast
  constructor
  · linarith [one_lt_log_three]
  · linarith [log_three_lt_two]

lemma ceil_log_three : ⌈Real.log 3 / (1 : ℝ) ^ 2⌉ = 2 := by
  rw [Int.ceil_eq_iff, one_pow, div_one]
  push_cast
  constructor
  · linarith [one_lt_log_three]
  · linarith [log_three_lt_two]

lemma runEpoch_count {B : Type} (bats : List B) :
    ∀ c0 : ℕ, runEpoch (fun c _ => c + 1) bats c0 = c0 + bats.length := by
  induction bats with
  | nil => intro c0; simp [runEpoch]
  | cons b rest ih =>
    intro c0
    simp only [runEpoch, List.foldl_cons, List.length_cons]
    have := ih (c0 + 1)
    simp only [runEpoch] at this
    rw [this]
    omega

lemma runEpochs_evals_length {Θ B : Type} (step : Θ → B → Θ) (eval : Θ → ℝ × ℝ) :
    ∀ (bss : List (List B)) (θ0 : Θ),
      (runEpochs step eval bss θ0).2.length = bss.length := by
  intro bss
  induction bss with
  | nil => intro θ0; simp [runEpochs]
  | cons bats rest ih =>
    intro θ0
    simp [runEpochs, ih]

lemma runEpochs_count {B : Type} (eval : ℕ → ℝ × ℝ) :
    ∀ (bss : List (List B)) (c0 : ℕ),
      (runEpochs (fun c _ => c + 1) eval bss c0).1
        = c0 + (bss.map List.length).sum := by
  intro bss
  induction bss with
  | nil => intro c0; simp [runEpochs]
  | cons bats rest ih =>
    intro c0
    simp only [runEpochs, List.map_cons, List.sum_cons]
    rw [ih, runEpoch_count]
    omega

lemma exp_93_3_le : Real.exp ((933:ℝ) / 100) ≤ 11314 := by
  have hpow : Real.exp ((933:ℝ) / 100) ^ 100 = Real.exp 933 := by
    rw [← Real.exp_nat_mul]
    norm_num
  have h933 : Real.exp 933 = Real.exp 1 ^ 933 := by
    rw [← Real.exp_nat_mul]
    norm_num
  have h1 : Real.exp 1 ^ 933 < (2.7182818286 : ℝ) ^ 933 :=
    pow_lt_pow_left₀ Real.exp_one_lt_d9 (Real.exp_pos 1).le (by norm_num)
  have h2 : (2.7182818286 : ℝ) ^ 933 < (11314 : ℝ) ^ 100 := by norm_num
  refine le_of_pow_le_pow_left₀ (by norm_num : (100:ℕ) ≠ 0)
    (by norm_num : (0:ℝ) ≤ 11314) ?_
  rw [hpow, h933]
  exact le_of_lt (lt_trans h1 h2)

lemma lt_exp_93_4 : (11314 : ℝ) < Real.exp ((934:ℝ) / 100) := by
  have hpow : Real.exp ((934:ℝ) / 100) ^ 100 = Real.exp 934 := by
    rw [← Real.exp_nat_mul]
    norm_num
  have h934 : Real.exp 934 = Real.exp 1 ^ 934 := by
    rw [← Real.exp_nat_mul]
    norm_num
  have h1 : (2.7182818283 : ℝ) ^ 934 < Real.exp 1 ^ 934 :=
    pow_lt_pow_left₀ Real.exp_one_gt_d9 (by norm_num) (by norm_num)
  have h2 : (11314 : ℝ) ^ 100 < (2.7182818283 : ℝ) ^ 934 := by norm_num
  refine lt_of_pow_lt_pow_left₀ 100 (Real.exp_pos _).le ?_
  rw [hpow, h934]
  exact lt_trans h2 h1

lemma log_11314_bounds :
    (933:ℝ) / 100 ≤ Real.log 11314 ∧ Real.log 11314 < (934:ℝ) / 100 := by
  constructor
  · exact (Real.le_log_iff_exp_le (by norm_num : (0:ℝ) < 11314)).mpr exp_93_3_le
  · exact (Real.log_lt_iff_lt_exp (by norm_num : (0:ℝ) < 11314)).mpr lt_exp_93_4

/- Claims. -/

/-- C1 (counterexample). At `p = 3`, `ε = 1`, the code's
`m = int(ln p / ε²) + 1` evaluates to 2, while the claimed
`⌈ln p / ε²⌉ + 1` evaluates to 3: the `+1` is not an extra margin on top of
the ceiling, so the claimed equation fails. -/
theorem computeM_ne_claimedM : computeM 3 1 = 2 ∧ claimedM 3 1 = 3 := by
  constructor
  · unfold computeM
    have h : ((3:ℕ):ℝ) = (3:ℝ) := by norm_num
    rw [h, floor_log_three]
    decide
  · unfold claimedM
    have h : ((3:ℕ):ℝ) = (3:ℝ) := by norm_num
    rw [h, ceil_log_three]
    decide

/-- C1 (amended). The computed `m = int(ln p / ε²) + 1` is the smallest
integer strictly greater than `ln p / ε²`; in particular `m > ln p / ε²`, and
the rounding up is accomplished by the truncation plus 1 itself, with no
additional margin. -/
theorem computeM_least_integer_gt (p : ℕ) (ε : ℝ) :
    Real.log p / ε ^ 2 < (computeM p ε : ℝ) ∧
      ∀ k : ℤ, Real.log p / ε ^ 2 < (k : ℝ) → computeM p ε ≤ k := by
  constructor
  · unfold computeM
    push_cast
    exact Int.lt_floor_add_one _
  · intro k hk
    unfold computeM
    have : ⌊Real.log p / ε ^ 2⌋ < k := Int.floor_lt.mpr hk
    omega

/-- C1 (witness for the amended theorem): at `p = 3`, `ε = 1`, `k = 5` the
bound and the minimality conclusion are discharged concretely. -/
theorem computeM_least_integer_gt_witness :
    Real.log 3 / (1 : ℝ) ^ 2 < ((5 : ℤ) : ℝ) ∧ computeM 3 1 ≤ 5 := by
  have hlt : Real.log ((3:ℕ):ℝ) / (1 : ℝ) ^ 2 < ((5 : ℤ) : ℝ) := by
    have h : ((3:ℕ):ℝ) = (3:ℝ) := by norm_num
    rw [h, one_pow, div_one]
    push_cast
    exact lt_trans log_three_lt_two (by norm_num)
  refine ⟨?_, (computeM_least_integer_gt 3 1).2 5 hlt⟩
  have h : ((3:ℕ):ℝ) = (3:ℝ) := by norm_num
  rw [← h]
  exact hlt

/-- C2. In the notebook's cell order, the projection matrix is stored exactly
once by cell-8 and is still that same matrix afterwards; both the training
projection (cells 11/12) and the test projection (cell-17) are computed with
this identical `R`. -/
theorem projection_matrix_fit_once {m n p q : ℕ} (R : Fin m → Fin n → ℝ)
    (M : Fin p → Fin n → ℝ) (Mt : Fin q → Fin n → ℝ) :
    (projectionPipeline R M Mt).rp = some R ∧
      (projectionPipeline R M Mt).M_prime = some (projectDocs R M) ∧
      (projectionPipeline R M Mt).M_prime_test = some (projectDocs R Mt) :=
  ⟨rfl, rfl, rfl⟩

/-- C3 (counterexample). For the degenerate document count `p = 1`, the cell
does not fail: it silently returns `m = 1` (since `ln 1 = 0`), for any `ε`. -/
theorem computeM_run_one_silent : computeM_run 1 (1 / 10) = some 1 := by
  unfold computeM_run computeM
  norm_num

/-- C3 (amended). The degenerate inputs are not rejected with a clear error:
for `p = 1` the computation silently returns `m = 1`; only `p = 0` aborts (the
`int(-inf)` overflow), and the vocabulary size `n` is never consulted at
all. -/
theorem computeM_run_degenerate (ε : ℝ) :
    computeM_run 1 ε = some 1 ∧ computeM_run 0 ε = none := by
  constructor
  · unfold computeM_run computeM
    norm_num
  · rfl

/-- C4. If `R` is a sparse random projection matrix, i.e. every entry is
`√s` times a sign `σ i j`, then projecting the one-hot vector for vocabulary
term `j` by the same left-multiplication used to build `M′` yields exactly the
`j`-th column of `R`, which is `√s` times the column's sign pattern. -/
theorem project_oneHot_column {m n : ℕ} (s : ℝ) (σ R : Fin m → Fin n → ℝ)
    (hR : ∀ i k, R i k = Real.sqrt s * σ i k) (j : Fin n) (i : Fin m) :
    matVecMul R (oneHot j) i = R i j ∧
      matVecMul R (oneHot j) i = Real.sqrt s * σ i j := by
  have hcol : matVecMul R (oneHot j) i = R i j := by
    unfold matVecMul oneHot
    simp [mul_ite]
  exact ⟨hcol, by rw [hcol, hR]⟩

/-- C4 (witness): a concrete 1×1 sparse projection matrix with `s = 4` and
sign `-1`; the projected one-hot equals the (only) column, `√4 · (-1)`. -/
theorem project_oneHot_column_witness :
    matVecMul (fun _ _ => Real.sqrt 4 * (-1) : Fin 1 → Fin 1 → ℝ) (oneHot 0) 0
        = (fun _ _ => Real.sqrt 4 * (-1) : Fin 1 → Fin 1 → ℝ) 0 0 ∧
      matVecMul (fun _ _ => Real.sqrt 4 * (-1) : Fin 1 → Fin 1 → ℝ) (oneHot 0) 0
        = Real.sqrt 4 * (-1) :=
  project_oneHot_column 4 (fun _ _ => -1) (fun _ _ => Real.sqrt 4 * (-1))
    (fun _ _ => rfl) 0 0

/-- C5. Every `next_batch` call samples without replacement: its two outputs
are maps of one pairwise-distinct (Nodup) index list; and since each batch is
drawn independently, an epoch's worth of batches need not cover the data set
(two size-1 batches from 2 documents can both miss document 1). -/
theorem next_batch_without_replacement :
    (∀ (α β : Type) (N num : ℕ) (perm : Equiv.Perm (Fin N))
        (data : Fin N → α) (labels : Fin N → β),
      ∃ idx : List (Fin N), idx.Nodup ∧
        (next_batch N num perm data labels).1 = idx.map data ∧
        (next_batch N num perm data labels).2 = idx.map labels) ∧
      ∃ p₁ p₂ : Equiv.Perm (Fin 2), ∃ i : Fin 2,
        i ∉ batchIdx 2 1 p₁ ∧ i ∉ batchIdx 2 1 p₂ := by
  constructor
  · intro α β N num perm data labels
    refine ⟨batchIdx N num perm, ?_, rfl, rfl⟩
    exact ((List.take_sublist num _).nodup
      ((List.nodup_finRange N).map perm.injective))
  · exact ⟨Equiv.refl _, Equiv.refl _, 1, by decide, by decide⟩

/-- C6. The cell-20 loop runs for exactly the fixed epoch count for every
optimizer step function and every sequence of observed losses (hence no early
stopping and no divergence handling): it produces exactly 12 per-epoch
held-out (loss, accuracy) evaluations, reports as its final result the test
accuracy of the final parameters, and executes exactly
`12 * int(11314/256) = 528` optimizer steps. -/
theorem cell20_fixed_epochs (Θ B : Type) (step : Θ → B → Θ)
    (eval : Θ → ℝ × ℝ) (finalAcc : Θ → ℝ) (bs : ℕ → ℕ → B) (θ0 : Θ)
    (evalc : ℕ → ℝ × ℝ) (finalc : ℕ → ℝ) :
    (cell20_train step eval finalAcc bs θ0).2.1.length = 12 ∧
      (cell20_train step eval finalAcc bs θ0).2.2
        = finalAcc (cell20_train step eval finalAcc bs θ0).1 ∧
      (cell20_train (fun c (_ : B) => c + 1) evalc finalc bs 0).1 = 528 := by
  refine ⟨?_, rfl, ?_⟩
  · unfold cell20_train
    rw [runEpochs_evals_length]
    simp
  · unfold cell20_train
    rw [runEpochs_count]
    simp only [List.map_map, Function.comp_def, List.length_map, List.length_range]
    rw [List.map_const']
    simp [List.sum_replicate]

/-- C7 (counterexample). A document none of whose terms survives into the
vocabulary has an all-zero TF-IDF row; sklearn's normalization leaves it at
zero, so its Euclidean norm is 0, not 1. -/
theorem tfidfRow_zero_not_unit :
    l2norm (tfidfRow (fun _ : Fin 1 => (0:ℝ)) (fun _ => 0)) ≠ 1 := by
  have h : l2norm (tfidfRow (fun _ : Fin 1 => (0:ℝ)) (fun _ => 0)) = 0 := by
    unfold tfidfRow l2normalizeRow l2norm
    simp
  rw [h]
  norm_num

/-- C7 (amended). Every TF-IDF row with at least one nonzero weight is exactly
unit-norm after L2 normalization; only an all-zero row (a document with no
in-vocabulary terms) keeps norm 0. -/
theorem tfidfRow_unit_norm {n : ℕ} (tf idf : Fin n → ℝ)
    (h : ∃ j, tf j * idf j ≠ 0) :
    l2norm (tfidfRow tf idf) = 1 := by
  obtain ⟨j0, hj0⟩ := h
  set w : Fin n → ℝ := fun j => tf j * idf j with hw
  have hpos : 0 < ∑ j, w j ^ 2 := by
    have hterm : 0 < w j0 ^ 2 :=
      lt_of_le_of_ne (sq_nonneg _) (Ne.symm (pow_ne_zero 2 hj0))
    exact Finset.sum_pos' (fun i _ => sq_nonneg _) ⟨j0, Finset.mem_univ _, hterm⟩
  have hNpos : 0 < l2norm w := Real.sqrt_pos.mpr hpos
  have hN : l2norm w ≠ 0 := ne_of_gt hNpos
  have key : l2norm (fun j => w j / l2norm w) = 1 := by
    unfold l2norm
    have hstep : ∀ j : Fin n,
        (w j / Real.sqrt (∑ k, w k ^ 2)) ^ 2 = w j ^ 2 / (∑ k, w k ^ 2) := by
      intro j
      rw [div_pow, Real.sq_sqrt (le_of_lt hpos)]
    rw [Finset.sum_congr rfl (fun j _ => hstep j), ← Finset.sum_div,
      div_self (ne_of_gt hpos), Real.sqrt_one]
  have hrow : l2normalizeRow w = fun j => w j / l2norm w := by
    funext j
    unfold l2normalizeRow
    rw [if_neg hN]
  show l2norm (l2normalizeRow w) = 1
  rw [hrow]
  exact key

/-- C7 (witness): for the single-term document with weight 1, the hypothesis
holds and the normalized row has norm exactly 1. -/
theorem tfidfRow_unit_norm_witness :
    l2norm (tfidfRow (fun _ : Fin 1 => (1:ℝ)) (fun _ => 1)) = 1 :=
  tfidfRow_unit_norm (fun _ => 1) (fun _ => 1) ⟨0, by norm_num⟩

/-- C8. For the notebook's concrete run, `p = 11314` training documents and
`ε = 0.1`, the computed minimum dimensionality is exactly 934 (cell-7's
printed output). -/
theorem computeM_concrete_run : computeM 11314 (1 / 10) = 934 := by
  unfold computeM
  have hcast : ((11314:ℕ):ℝ) = (11314:ℝ) := by norm_num
  rw [hcast]
  have hsq : ((1:ℝ) / 10) ^ 2 = 1 / 100 := by norm_num
  have hdiv : Real.log 11314 / ((1:ℝ) / 10) ^ 2 = 100 * Real.log 11314 := by
    rw [hsq]
    rw [div_div_eq_mul_div, div_one, mul_comm]
  rw [hdiv]
  have hfloor : ⌊(100:ℝ) * Real.log 11314⌋ = 933 := by
    rw [Int.floor_eq_iff]
    obtain ⟨hlo, hhi⟩ := log_11314_bounds
    push_cast
    constructor
    · linarith
    · linarith
  rw [hfloor]
  decide

/-- C10. `next_batch(num, data, labels)` returns exactly `min num N` entries
in each output (silently fewer than requested when `num > N`), and every
returned (sample, label) pair is `(data i, labels i)` for one and the same
original index `i`. -/
theorem next_batch_length_and_pairing (α β : Type) (N num : ℕ)
    (perm : Equiv.Perm (Fin N)) (data : Fin N → α) (labels : Fin N → β) :
    (next_batch N num perm data labels).1.length = min num N ∧
      (next_batch N num perm data labels).2.length = min num N ∧
      ∀ pr ∈ (next_batch N num perm data labels).1.zip
          (next_batch N num perm data labels).2,
        ∃ i : Fin N, pr = (data i, labels i) := by
  have hlen : (batchIdx N num perm).length = min num N := by
    unfold batchIdx
    simp
  refine ⟨?_, ?_, ?_⟩
  · unfold next_batch
    simp [hlen]
  · unfold next_batch
    simp [hlen]
  · intro pr hpr
    unfold next_batch at hpr
    rw [List.zip_map'] at hpr
    obtain ⟨i, _, hi⟩ := List.mem_map.mp hpr
    exact ⟨i, hi.symm⟩

/-- C10 (witness): with 2 documents, `num = 1` and the identity shuffle, the
single returned pair is `(data 0, labels 0)` and its membership hypothesis is
discharged concretely. -/
theorem next_batch_length_and_pairing_witness :
    ∃ i : Fin 2,
      (((0:ℕ), (10:ℕ)) : ℕ × ℕ)
        = ((fun k : Fin 2 => (k:ℕ)) i, (fun k : Fin 2 => (k:ℕ) + 10) i) :=
  (next_batch_length_and_pairing ℕ ℕ 2 1 (Equiv.refl _)
      (fun k => (k:ℕ)) (fun k => (k:ℕ) + 10)).2.2 ((0:ℕ), (10:ℕ)) (by decide)

end RandomProjections
